import Mathlib

/-!
Verification development for `mailpile/crypto/keyinfo.py`: a shallow embedding
of the OpenPGP key-metadata parser (`get_keyinfo` and the `KeyInfo`/`KeyUID`
model classes), together with proofs about the embedded functions.

Modelling conventions:
* The pgpdump packet decoder is an external collaborator; its output is the
  input of the embedding (`Packet` values).  Stream-level decoding is
  represented by an `Except DecodeErr (List Packet)` argument.
* Python `None` is represented by `Option.none` for fields which the decoder
  can leave absent.  Python exceptions are represented by the `PyErr` type;
  an operation which can raise returns the partial state it produced
  together with an `Option PyErr`.
* Machine arithmetic: the key-size computation in the source runs on IEEE-754
  binary64 ("double") values (`1.024`, `0.256`, `round`, `/`, `*`).  Doubles
  are modelled exactly as integer fractions; every double operation is a
  correctly-rounded rational operation followed by round-to-nearest-even at
  53 significant bits.  All arithmetic below is integer arithmetic on ℤ/ℕ.
* CPython 2 specifics that the source relies on are modelled explicitly and
  documented where they are used: `str` hash/set iteration order for
  `''.join(caps)`, truthiness of `None > 0`, `bool` being a subtype of `int`,
  and `round` rounding halves away from zero.
-/

set_option maxRecDepth 16384
set_option exponentiation.threshold 600

/-! ## Integer model of the Python float computation for key sizes -/

/-- The value `⌊log_b n⌋` for `n ≥ 1`, computed with an explicit fuel argument so that
it is structurally recursive (callers pass `n` itself as fuel, which always
suffices since the argument at least halves each step for `b ≥ 2`). -/
def natLogFuel (b : ℕ) : ℕ → ℕ → ℕ
  | 0, _ => 0
  | f + 1, n => if b ≤ n then natLogFuel b f (n / b) + 1 else 0

/-- Python `len('%x' % n)`: the number of lowercase hex digits Python prints for the
non-negative integer `n` (`'%x' % 0` is `"0"`, so `0` has one digit). -/
def hexDigits (n : ℕ) : ℕ := if n = 0 then 1 else natLogFuel 16 n n + 1

/-- The common 53-bit significand of the doubles nearest to `0.256` and
`1.024`: `0.256 = M52 / 2^54` and `1.024 = M52 / 2^52` as binary64 values
(`0.256 = 32/125` and `1.024 = 128/125` differ by a factor `4`, hence the
shared significand). -/
def M52 : ℤ := 4611686018427388

/-- Round the fraction `a / b` (with `b > 0`) to the nearest integer, ties to
even: the IEEE-754 default rounding applied to a significand. -/
def rheFrac (a b : ℤ) : ℤ :=
  let f := Int.ediv a b
  let r2 := 2 * (a - f * b)
  if r2 < b then f
  else if b < r2 then f + 1
  else if Int.emod f 2 = 0 then f else f + 1

/-- Python 2 `round(x)` for `x ≥ 0` given as the fraction `a / b`, `b > 0`:
nearest integer, halves away from zero. -/
def pyRoundPos (a b : ℤ) : ℤ := Int.ediv (2 * a + b) (2 * b)

/-- Round the positive rational `a / b` (with `a, b > 0`, value `≥ 1`) to the
nearest binary64 value, returned as a fraction `(num, den)` with `den` a power
of two.  The exponent is found via `⌊log₂⌋` of the integer part; the
53-bit significand is obtained with round-to-nearest, ties-to-even.  (Inputs
of this development stay far below the binary64 overflow threshold.) -/
def roundDoubleF (a b : ℤ) : ℤ × ℤ :=
  let fl := Int.toNat (Int.ediv a b)
  let k := natLogFuel 2 fl fl
  if k ≤ 52 then
    let s : ℤ := 2 ^ (52 - k)
    (rheFrac (a * s) b, s)
  else
    let s : ℤ := 2 ^ (k - 52)
    (rheFrac a (b * s) * s, 1)

/-- Evaluates `int(1.024 * round(len / 0.256))` exactly as CPython 2 evaluates it on
doubles, where `len = h` is the hex-digit count of the modulus:
`h / 0.256` is a correctly-rounded double division (`0.256` being the double
`M52 / 2^54`), `round` rounds that double half-away-from-zero to an integer,
the product with the double `1.024 = M52 / 2^52` is correctly rounded again,
and `int` truncates.  Validated bit-for-bit against CPython for all
`1 ≤ h ≤ 5000`. -/
def pyKeysize (h : ℕ) : ℤ :=
  let p1 := roundDoubleF ((h : ℤ) * 2 ^ 54) M52
  let n := pyRoundPos p1.1 p1.2
  let p2 := roundDoubleF (M52 * n) (2 ^ 52)
  Int.ediv p2.1 p2.2

/-! ## CPython 2 set-of-capability-letters model -/

/-- First-occurrence deduplication (a Python `set` keeps the slot of the first
insertion; re-adding an element is a no-op).  `seen` accumulates the elements
already kept. -/
def pyDedup.go (seen : List Char) : List Char → List Char
  | [] => []
  | c :: rest => if c ∈ seen then pyDedup.go seen rest
                 else c :: pyDedup.go (c :: seen) rest

/-- The insertion order of a CPython set built by inserting `l` left to right. -/
def pyDedup (l : List Char) : List Char := pyDedup.go [] l

/-- Models `''.join(caps)` where `caps` is a CPython 2.7 `set` of single-character
strings drawn from `{'a','c','e','s'}`, built by inserting the characters of
`ins` left to right.  CPython 2.7 behaviour, derived from its `stringobject.c`
hash (`x = (1000003*(ord c << 7)) ^ ord c; x ^= 1`) and `setobject.c` (table
size 8 for at most 5 elements, probe `i ← 5*i + perturb + 1`, iteration in
slot order): `'a'` sits in slot 0, `'e'` in slot 4, and `'c'`/`'s'` both hash
to slot 2, the first inserted of the two landing in slot 2 and the second in
slot 5.  Iteration order is therefore: `'a'`, first-inserted of `{'c','s'}`,
`'e'`, second-inserted of `{'c','s'}` — NOT sorted order.  (Characters outside
`{'a','c','e','s'}` never occur here: capability strings are only ever built
from these four letters.) -/
def cpySetJoin (ins : List Char) : List Char :=
  let il := pyDedup ins
  let cs := il.filter (fun c => c = 'c' ∨ c = 's')
  il.filter (fun c => c = 'a') ++ cs.take 1 ++ il.filter (fun c => c = 'e') ++ cs.drop 1

/-- The capability letters added for a key-flags byte `b`, in the order the
source's loop inserts them: `0x01 → 'c'`, `0x02 → 's'`, `0x0C → 'e'`,
`0x20 → 'a'`. -/
def keyFlagLetters (b : ℕ) : List Char :=
  (if b &&& 0x01 ≠ 0 then ['c'] else []) ++
  (if b &&& 0x02 ≠ 0 then ['s'] else []) ++
  (if b &&& 0x0C ≠ 0 then ['e'] else []) ++
  (if b &&& 0x20 ≠ 0 then ['a'] else [])

/-! ## The KeyUID / KeyInfo data model

`KeyUID` and `KeyInfo` are `RestrictedDict`s in the source.  Here they are
records whose field types reflect the values the parser actually stores:
`name`/`email` may hold Python `None` (the constructor-keyword path stores the
decoder's values unvalidated), `keysize` holds the *string* built in
`get_keyinfo` (see the `RestrictedDict` model below for why the declared
`(int, 0)` type is not enforced on constructor keywords).  Fields that are
never assigned keep their `RestrictedDict` read-time defaults. -/

structure KeyUID where
  name : Option String
  email : Option String
  comment : String
deriving DecidableEq, Repr

/-- One PGP key (primary or subkey).  Recursive because `subkeys` holds
further `KeyInfo` values, hence an inductive with explicit projections. -/
inductive KeyInfo where
  | mk (fingerprint : Option String) (keytype_name : String)
       (keytype_code : Option Int) (keysize : String) (capabilities : String)
       (created : Int) (expires : Int) (validity : String)
       (uids : List KeyUID) (subkeys : List KeyInfo) (is_subkey : Bool)
       (on_keychain : Bool)

def KeyInfo.fingerprint : KeyInfo → Option String
  | .mk f _ _ _ _ _ _ _ _ _ _ _ => f

def KeyInfo.keytype_name : KeyInfo → String
  | .mk _ kn _ _ _ _ _ _ _ _ _ _ => kn

def KeyInfo.keytype_code : KeyInfo → Option Int
  | .mk _ _ kc _ _ _ _ _ _ _ _ _ => kc

def KeyInfo.keysize : KeyInfo → String
  | .mk _ _ _ ks _ _ _ _ _ _ _ _ => ks

def KeyInfo.capabilities : KeyInfo → String
  | .mk _ _ _ _ cap _ _ _ _ _ _ _ => cap

def KeyInfo.created : KeyInfo → Int
  | .mk _ _ _ _ _ cr _ _ _ _ _ _ => cr

def KeyInfo.expires : KeyInfo → Int
  | .mk _ _ _ _ _ _ ex _ _ _ _ _ => ex

def KeyInfo.validity : KeyInfo → String
  | .mk _ _ _ _ _ _ _ v _ _ _ _ => v

def KeyInfo.uids : KeyInfo → List KeyUID
  | .mk _ _ _ _ _ _ _ _ u _ _ _ => u

def KeyInfo.subkeys : KeyInfo → List KeyInfo
  | .mk _ _ _ _ _ _ _ _ _ s _ _ => s

def KeyInfo.is_subkey : KeyInfo → Bool
  | .mk _ _ _ _ _ _ _ _ _ _ isk _ => isk

def KeyInfo.on_keychain : KeyInfo → Bool
  | .mk _ _ _ _ _ _ _ _ _ _ _ okc => okc

def KeyInfo.withCreated (c : Int) : KeyInfo → KeyInfo
  | .mk f kn kc ks cap _ ex v u s isk okc => .mk f kn kc ks cap c ex v u s isk okc

def KeyInfo.withExpires (e : Int) : KeyInfo → KeyInfo
  | .mk f kn kc ks cap cr _ v u s isk okc => .mk f kn kc ks cap cr e v u s isk okc

def KeyInfo.withCapabilities (c : String) : KeyInfo → KeyInfo
  | .mk f kn kc ks _ cr ex v u s isk okc => .mk f kn kc ks c cr ex v u s isk okc

def KeyInfo.withValidity (v : String) : KeyInfo → KeyInfo
  | .mk f kn kc ks cap cr ex _ u s isk okc => .mk f kn kc ks cap cr ex v u s isk okc

def KeyInfo.withUids (u : List KeyUID) : KeyInfo → KeyInfo
  | .mk f kn kc ks cap cr ex v _ s isk okc => .mk f kn kc ks cap cr ex v u s isk okc

def KeyInfo.withSubkeys (s : List KeyInfo) : KeyInfo → KeyInfo
  | .mk f kn kc ks cap cr ex v u _ isk okc => .mk f kn kc ks cap cr ex v u s isk okc

def KeyInfo.withIsSubkey (b : Bool) : KeyInfo → KeyInfo
  | .mk f kn kc ks cap cr ex v u s _ okc => .mk f kn kc ks cap cr ex v u s b okc

/-- The `key_info_class()` call with no keyword arguments: every read of a plain field
goes through the `RestrictedDict` defaults.  (This dummy object is current
only while `results` is empty, and every branch that touches the current key
is guarded by `results` being non-empty, so its field values are never
observed; `keysize` — declared `(int, 0)` — is rendered `"0"` here since this
model gives the field the type the parser actually stores, a string.) -/
def dummyKeyInfo : KeyInfo :=
  .mk none "unknown" none "0" "" 0 0 "?" [] [] false false

instance : Inhabited KeyInfo := ⟨dummyKeyInfo⟩

/-! ## Decoder-facing packet model -/

/-- The fields `get_keyinfo` reads off a pgpdump `PublicKeyPacket` (or
`PublicSubkeyPacket`, distinguished by `isSubkeyPacket`).  `Option` marks
fields the decoder may set to `None`. -/
structure PubKeyData where
  fingerprint : Option String
  pubAlgorithm : Option String
  rawPubAlgorithm : Option Int
  modulus : Option ℕ
  rawCreationTime : Option Int
  rawDaysValid : Option Int
  isSubkeyPacket : Bool

/-- A signature subpacket: numeric subtype plus raw payload bytes (may be
`None`). -/
structure Subpacket where
  subtype : ℕ
  data : Option (List ℕ)

/-- The decoded packets `get_keyinfo` dispatches on; every other packet type
falls into `other` and is ignored by the loop. -/
inductive Packet where
  | publicKey (d : PubKeyData)
  | userId (name email : Option String)
  | signature (rawCreationTime : Option Int) (subpackets : Option (List Subpacket))
  | other

/-- The Python exception classes that matter to `get_keyinfo`'s handlers. -/
inductive PyErr where
  | typeErr | attrErr | keyErr | indexErr | nameErr | otherErr
deriving DecidableEq, Repr

/-- Stream-level decode failures caught at the top of `get_keyinfo`
(`TypeError, IndexError, PgpdumpException`); pgpdump signals structural
errors with `PgpdumpException`. -/
inductive DecodeErr where
  | typeErr | indexErr | pgpdumpErr
deriving DecidableEq, Repr

/-- Models `pgpdump.utils.get_int4(data, 0)`: big-endian 4-byte integer from the
start of `data`; indexing past the end raises `IndexError`. -/
def get_int4 (data : List ℕ) : Except PyErr Int :=
  match data with
  | b0 :: b1 :: b2 :: b3 :: _ =>
      .ok ((b0 * 2 ^ 24 + b1 * 2 ^ 16 + b2 * 2 ^ 8 + b3 : ℕ) : Int)
  | _ => .error .indexErr

/-! ## Parser state

`last_key` in the source is a *reference* that aliases either the dummy, an
orphan subkey (built when a subkey packet arrives with `results` still
empty, so that `results[-1]` raised `IndexError` after `last_key` was already
rebound), the last element of `results`, or the last subkey of the last
element of `results`.  The state keeps `results` materialised and records
where the current key lives; `getCur`/`setCur` read/write through that
reference. -/

inductive CurLoc where
  | dummy | orphan | top | sub
deriving DecidableEq, Repr

structure PState where
  results : List KeyInfo
  detached : KeyInfo
  loc : CurLoc

/-- Replace the last element of a list by `f` of itself (no-op on `[]`). -/
def updateLast (f : α → α) : List α → List α
  | [] => []
  | [a] => [f a]
  | a :: b :: t => a :: updateLast f (b :: t)

def getCur (s : PState) : KeyInfo :=
  match s.loc with
  | .dummy => s.detached
  | .orphan => s.detached
  | .top => s.results.getLastD dummyKeyInfo
  | .sub => ((s.results.getLastD dummyKeyInfo).subkeys).getLastD dummyKeyInfo

def setCur (f : KeyInfo → KeyInfo) (s : PState) : PState :=
  match s.loc with
  | .dummy => { s with detached := f s.detached }
  | .orphan => { s with detached := f s.detached }
  | .top => { s with results := updateLast f s.results }
  | .sub =>
    { s with results := updateLast (fun p => p.withSubkeys (updateLast f p.subkeys)) s.results }

/-- Well-formedness of the transient parser state: the dummy/orphan is
current exactly while `results` is empty, and when a subkey is current the
last result has at least one subkey. -/
def StateWF (s : PState) : Prop :=
  match s.loc with
  | .dummy => s.results.isEmpty = true
  | .orphan => s.results.isEmpty = true
  | .top => s.results.isEmpty = false
  | .sub => s.results.isEmpty = false ∧
      ((s.results.getLastD dummyKeyInfo).subkeys).isEmpty = false

def initState : PState := ⟨[], dummyKeyInfo, .dummy⟩

/-- The structural invariant of one assembled key: it is a top-level key and
everything in its `subkeys` list is marked as a subkey. -/
def KeyFlagsOK (k : KeyInfo) : Prop :=
  k.is_subkey = false ∧ ∀ sk ∈ k.subkeys, sk.is_subkey = true

/-- Every key in `results` satisfies `KeyFlagsOK`. -/
def ResultsInv (s : PState) : Prop := ∀ k ∈ s.results, KeyFlagsOK k

/-- A per-key update that touches neither `is_subkey` nor `subkeys` (all the
updates the signature interpreter and the UID/date writers perform). -/
def PreservesStructure (f : KeyInfo → KeyInfo) : Prop :=
  ∀ k, (f k).is_subkey = k.is_subkey ∧ (f k).subkeys = k.subkeys

/-! ## The packet loop -/

/-- The `KeyInfo` built by the `key_info_class(...)` call for a public-key
packet: `size = str(int(1.024 * round(len('%x' % (m.modulus or 0)) / 0.256)))`
and the four constructor keywords.  Keyword values bypass `__setitem__`
validation (see the `RestrictedDict` model below), so `fingerprint` may hold
`None`, `keytype_code` may hold `None`, and `keysize` holds the *string*
`size`.  All other fields are at their defaults (`uids`/`subkeys` are set to
fresh empty lists by `RestrictedDict.__init__`). -/
def mkKeyOfPacket (d : PubKeyData) : KeyInfo :=
  .mk d.fingerprint (d.pubAlgorithm.getD "") d.rawPubAlgorithm
    (toString (pyKeysize (hexDigits (d.modulus.getD 0)))) "" 0 0 "?" [] [] false false

/-- Lines 224–228: attach the freshly built key — a primary is appended to
`results` and becomes current; a subkey is marked `is_subkey`, appended to
`results[-1].subkeys` and becomes current, unless `results` is empty, in
which case `results[-1]` raises `IndexError` (`none`). -/
def attachKey (d : PubKeyData) (s : PState) : Option PState :=
  let k0 := mkKeyOfPacket d
  if d.isSubkeyPacket then
    if s.results.isEmpty then none
    else
      let res := updateLast (fun p => p.withSubkeys (p.subkeys ++ [k0.withIsSubkey true])) s.results
      some { results := res, detached := s.detached, loc := .sub }
  else some { results := s.results ++ [k0], detached := s.detached, loc := .top }

/-- Lines 232–236: set `created` on the current key (a `TypeError` if the
decoder gave no creation time — the key stays attached with `created = 0`)
and, when `raw_days_valid > 0` (Python 2 numeric comparison: `None > 0` is
`False`, not an error), set `expires = created + days·24·3600`, resetting it
to `0` if it coincides with `created`. -/
def setKeyDates (d : PubKeyData) (s1 : PState) : PState × Option PyErr :=
  match d.rawCreationTime with
  | none => (s1, some .typeErr)
  | some ct =>
    let s2 := setCur (KeyInfo.withCreated ct) s1
    match d.rawDaysValid with
    | none => (s2, none)
    | some days =>
      if 0 < days then
        let s3 := setCur (KeyInfo.withExpires (ct + days * 24 * 3600)) s2
        (setCur (fun k => if k.expires = k.created then k.withExpires 0 else k) s3, none)
      else (s2, none)

/-- Lines 216–236: build the key, attach it (an `IndexError` from
`results[-1]` on an orphan subkey leaves the new subkey as the dangling
current key), then set its dates. -/
def processPublicKey (d : PubKeyData) (s : PState) : PState × Option PyErr :=
  match attachKey d s with
  | none => ({ results := s.results, detached := (mkKeyOfPacket d).withIsSubkey true,
               loc := .orphan }, some .indexErr)
  | some s1 => setKeyDates d s1

/-- Lines 238–240: when at least one key has been seen, build a `KeyUID` from
the packet's name/email (constructor keywords — stored unvalidated, `comment`
left at its default `""`) and append it to `last_key.uids`, i.e. to the
*current* key, whichever that is. -/
def processUserId (name email : Option String) (s : PState) : PState × Option PyErr :=
  if s.results.isEmpty then (s, none)
  else (setCur (fun k => k.withUids (k.uids ++ [⟨name, email, ""⟩])) s, none)

/-- Line 246–247: the candidate expiry for a key-expiration subpacket is
`_unixtime(m, seconds=...) = m.raw_creation_time + seconds` where `m` is the
*signature* packet; it overwrites `expires` when it is positive and below the
current value, or when the current value is `0`. -/
def applyKeyExpiration (exp : Int) (k : KeyInfo) : KeyInfo :=
  if (0 < exp ∧ exp < k.expires) ∨ k.expires = 0 then k.withExpires exp else k

/-- Lines 248–254: key-flags subpacket — union the current capability letters
with the flagged letters in a Python set and store `''.join` of it (CPython 2
set-iteration order, see `cpySetJoin`). -/
def applyKeyFlags (b : ℕ) (k : KeyInfo) : KeyInfo :=
  k.withCapabilities (String.mk (cpySetJoin (k.capabilities.data ++ keyFlagLetters b)))

/-- One signature subpacket (lines 243–254).  Subtype 9: `get_int4(s.data, 0)`
is evaluated first (raising `TypeError` on `None`, `IndexError` on short
data), then `_unixtime` adds the signature packet's creation time (`TypeError`
if that is `None`).  Subtype 27: `s.data[0]` raises on `None`/empty data.
Other subtypes are ignored.  On an error the state is unchanged (the failing
operation precedes the assignment). -/
def procSubpacket (ct : Option Int) (sp : Subpacket) (s : PState) :
    PState × Option PyErr :=
  if sp.subtype = 9 then
    match sp.data with
    | none => (s, some .typeErr)
    | some d =>
      match get_int4 d with
      | .error e => (s, some e)
      | .ok sec =>
        match ct with
        | none => (s, some .typeErr)
        | some c => (setCur (applyKeyExpiration (c + sec)) s, none)
  else if sp.subtype = 27 then
    match sp.data with
    | none => (s, some .typeErr)
    | some [] => (s, some .indexErr)
    | some (b :: _) => (setCur (applyKeyFlags b) s, none)
  else (s, none)

/-- The `for s in m.subpackets` loop: an exception aborts the remaining
subpackets of this signature packet (the `try` wraps the whole packet). -/
def procSubpackets (ct : Option Int) : List Subpacket → PState → PState × Option PyErr
  | [], s => (s, none)
  | sp :: rest, s =>
    match procSubpacket ct sp s with
    | (s1, none) => procSubpackets ct rest s1
    | (s1, some e) => (s1, some e)

/-- Lines 242–254: signature packets are processed only once `results` is
non-empty; iterating over `subpackets = None` raises `TypeError`. -/
def processSignature (ct : Option Int) (subs : Option (List Subpacket)) (s : PState) :
    PState × Option PyErr :=
  if s.results.isEmpty then (s, none)
  else
    match subs with
    | none => (s, some .typeErr)
    | some l => procSubpackets ct l s

/-- One iteration of the packet loop body (the `try` block, lines 215–254),
returning the state left behind (including partial effects of a failing
packet) and the exception the iteration raised, if any. -/
def stepE (s : PState) : Packet → PState × Option PyErr
  | .publicKey d => processPublicKey d s
  | .userId name email => processUserId name email s
  | .signature ct subs => processSignature ct subs s
  | .other => (s, none)

/-- The `except (TypeError, AttributeError, KeyError, IndexError, NameError)`
clause of line 256. -/
def caught : PyErr → Bool
  | .typeErr => true
  | .attrErr => true
  | .keyErr => true
  | .indexErr => true
  | .nameErr => true
  | .otherErr => false

/-- The packet loop with the per-packet handler: a caught exception is logged
and the loop continues from the partial state. -/
def runPackets : PState → List Packet → PState
  | s, [] => s
  | s, p :: ps => runPackets (stepE s p).1 ps

/-- The packet loop as it would behave if an iteration raised an exception
*not* in the `except` clause: such an exception propagates to the caller. -/
def runPacketsE : PState → List Packet → Except PyErr PState
  | s, [] => .ok s
  | s, p :: ps =>
    match stepE s p with
    | (s1, none) => runPacketsE s1 ps
    | (s1, some e) => if caught e then runPacketsE s1 ps else .error e

/-! ## Derivation pass (lines 259–275) -/

/-- Method `KeyInfo.synthesize_validity`: mark an expired key `'e'` unless a
non-default validity was already assigned. -/
def synthesize_validity (now : Int) (k : KeyInfo) : KeyInfo :=
  if (0 < k.expires ∧ k.expires < now) ∧ (k.validity = "" ∨ k.validity = "?") then
    k.withValidity "e"
  else k

/-- Insertion sort by character code: the canonical form of Python's
`sorted(list(subkey_caps))` for a set of characters. -/
def insertSorted (c : Char) : List Char → List Char
  | [] => [c]
  | d :: rest => if c ≤ d then c :: d :: rest else d :: insertSorted c rest

def insSort : List Char → List Char
  | [] => []
  | c :: rest => insertSorted c (insSort rest)

/-- The `subkey_caps` set of `KeyInfo.add_subkey_capabilities`: the union of
the capability letters of all subkeys not strictly inside `(0, now)` by
`expires` (a Python set, represented by its insertion order). -/
def subkeyCapsList (now : Int) (k : KeyInfo) : List Char :=
  pyDedup (k.subkeys.foldl
    (fun acc sk => if 0 < sk.expires ∧ sk.expires < now then acc
                   else acc ++ sk.capabilities.data) [])

/-- Method `KeyInfo.add_subkey_capabilities`: union the capability letters of all
unexpired subkeys; if the union is non-empty, rewrite capabilities as
`base + '+' + sorted-letters` where `base` is `capabilities.split('+')[0]`,
i.e. the prefix before the first `'+'`.  (`sorted(list(...))` makes the set
order canonical, so the set is modelled as concatenate-dedup-sort.) -/
def add_subkey_capabilities (now : Int) (k : KeyInfo) : KeyInfo :=
  if (subkeyCapsList now k).isEmpty then k
  else k.withCapabilities
    (String.mk (k.capabilities.data.takeWhile (fun c => c ≠ '+')
      ++ '+' :: insSort (subkeyCapsList now k)))

/-- Method `KeyInfo.ensure_autocrypt_uid`: annotate every UID whose email matches the
Autocrypt claim; if none matches, append the synthesized UID. -/
def ensure_autocrypt_uid (ac : KeyUID) (k : KeyInfo) : KeyInfo :=
  if k.is_subkey then k
  else if k.uids.any (fun u => u.email = ac.email) then
    k.withUids (k.uids.map
      (fun u => if u.email = ac.email then { u with comment := u.comment ++ "(Autocrypt)" } else u))
  else k.withUids (k.uids ++ [ac])

/-- The per-key post-processing of lines 268–273, applied in source order
with a single shared `now`. -/
def postProcess (autocrypt_addr : Option String) (now : Int) (results : List KeyInfo) :
    List KeyInfo :=
  let acUid : Option KeyUID := autocrypt_addr.map (fun a => ⟨none, some a, "Autocrypt"⟩)
  results.map (fun k =>
    let k1 := synthesize_validity now k
    let k2 := add_subkey_capabilities now k1
    match acUid with
    | none => k2
    | some u => ensure_autocrypt_uid u k2)

/-! ## get_keyinfo

The decoding of the raw blob (`pgpdump.AsciiData` / `pgpdump.BinaryData`,
lines 196–204) is the external decoder: its outcome is the `Except` input.
The Autocrypt header, when supplied, carries its `addr` attribute (per the
interface contract, an identity claim has at least an email address);
`time.time()` is the `now` argument. -/

def get_keyinfo (decoded : Except DecodeErr (List Packet))
    (autocrypt_addr : Option String) (now : Int) : List KeyInfo :=
  match decoded with
  | .error _ => []
  | .ok packets => postProcess autocrypt_addr now (runPackets initState packets).results

/-- How `get_keyinfo` would behave if some packet iteration raised an
exception outside the `except` clause (the derivation pass and the list
return cannot raise: every field they touch carries the type its writers
enforce). -/
def get_keyinfoE (decoded : Except DecodeErr (List Packet))
    (autocrypt_addr : Option String) (now : Int) : Except PyErr (List KeyInfo) :=
  match decoded with
  | .error _ => .ok []
  | .ok packets =>
    (runPacketsE initState packets).map (fun st => postProcess autocrypt_addr now st.results)

/-! ## The RestrictedDict container (lines 38–73)

A dynamically-typed model of `RestrictedDict`: dictionaries are association
lists of `PyVal`s, `KEYS` tables map field names to a `PyType` and a default
`PyVal`.  It exhibits the validation behaviour of `__setitem__` and the
validation *bypass* of `__init__`'s keyword arguments (CPython's
`dict.__init__` stores keyword arguments directly at the C level without
calling the subclass `__setitem__`). -/

inductive PyVal where
  | vStr (s : String)
  | vInt (n : Int)
  | vBool (b : Bool)
  | vList (l : List PyVal)
  | vDict
  | vNone

inductive PyType where
  | tStr | tInt | tBool | tList | tDict
deriving DecidableEq, Repr

/-- Python 2 `isinstance`; note `bool` is a subclass of `int`. -/
def isinstance : PyVal → PyType → Bool
  | .vStr _, .tStr => true
  | .vInt _, .tInt => true
  | .vBool _, .tBool => true
  | .vBool _, .tInt => true
  | .vList _, .tList => true
  | .vDict, .tDict => true
  | _, _ => false

def dictSet (d : List (String × PyVal)) (k : String) (v : PyVal) :
    List (String × PyVal) :=
  if d.any (fun e => e.1 = k) then d.map (fun e => if e.1 = k then (k, v) else e)
  else d ++ [(k, v)]

def dictLookup (d : List (String × PyVal)) (k : String) : Option PyVal :=
  (d.find? (fun e => e.1 = k)).map (fun e => e.2)

/-- The `KeyInfo.KEYS` table (lines 94–106). -/
def keyInfoKEYS : List (String × PyType × PyVal) :=
  [("fingerprint", .tStr, .vStr "MISSING"),
   ("capabilities", .tStr, .vStr ""),
   ("keytype_name", .tStr, .vStr "unknown"),
   ("keytype_code", .tInt, .vInt 0),
   ("keysize", .tInt, .vInt 0),
   ("created", .tInt, .vInt 0),
   ("expires", .tInt, .vInt 0),
   ("validity", .tStr, .vStr "?"),
   ("uids", .tList, .vNone),
   ("subkeys", .tList, .vNone),
   ("is_subkey", .tBool, .vBool false),
   ("on_keychain", .tBool, .vBool false)]

def lookupKEYS (KEYS : List (String × PyType × PyVal)) (k : String) :
    Option (PyType × PyVal) :=
  (KEYS.find? (fun e => e.1 = k)).map (fun e => e.2)

/-- Python `item[:1] == '_'`: the key's first character is an underscore. -/
def firstIsUnderscore (key : String) : Bool :=
  match key.data with
  | [] => false
  | c :: _ => c = '_'

/-- Method `RestrictedDict.__setitem__` (lines 60–67): names not starting with `'_'`
must be declared in `KEYS` (else `KeyError`) and the value must be an
instance of the declared type (else `TypeError`); names starting with `'_'`
bypass both checks. -/
def rdSetitem (KEYS : List (String × PyType × PyVal)) (d : List (String × PyVal))
    (key : String) (v : PyVal) : Except PyErr (List (String × PyVal)) :=
  if firstIsUnderscore key then .ok (dictSet d key v)
  else
    match lookupKEYS KEYS key with
    | none => .error .keyErr
    | some (t, _) => if isinstance v t then .ok (dictSet d key v) else .error .typeErr

/-- Method `RestrictedDict.__init__` (lines 48–52): `dict.__init__` stores the
keyword arguments *without* any validation, then every `list`- or
`dict`-typed declared key is overwritten with a fresh empty container (this
write goes through `__setitem__` and always passes its checks). -/
def rdInit (KEYS : List (String × PyType × PyVal)) (kwargs : List (String × PyVal)) :
    List (String × PyVal) :=
  KEYS.foldl
    (fun d e =>
      if e.2.1 = PyType.tList then dictSet d e.1 (.vList [])
      else if e.2.1 = PyType.tDict then dictSet d e.1 .vDict
      else d)
    kwargs

/-- The `key_info_class(fingerprint=..., keytype_name=..., keytype_code=...,
keysize=...)` call of lines 219–223, in the dynamic model. -/
def mkKeyInfoDict (fp ktn ktc sz : PyVal) : List (String × PyVal) :=
  rdInit keyInfoKEYS
    [("fingerprint", fp), ("keytype_name", ktn), ("keytype_code", ktc), ("keysize", sz)]

/-! ## Projection lemmas for the `KeyInfo` updaters -/

/-- C4 counterexample stream: a key created at time 100, a first signature
(creation time 10) whose key-expiration subpacket carries duration 40
(adopted: expires becomes 10 + 40 = 50), then a second signature with
creation time 0 and duration 30. -/
def c4Stream : List Packet :=
  [.publicKey ⟨some "FP", some "RSA", some 1, none, some 100, none, false⟩,
   .signature (some 10) (some [⟨9, some [0, 0, 0, 40]⟩]),
   .signature (some 0) (some [⟨9, some [0, 0, 0, 30]⟩])]

/-- A key with `expires = 100` for the C4/C5 witnesses. -/
def keyExp100 : KeyInfo := .mk none "RSA" (some 1) "2048" "" 0 100 "?" [] [] false false

/-- The end-to-end RSA-2048 packet of the spec's example: a primary key
whose modulus has 512 hex digits. -/
def rsa2048Packet : Packet :=
  .publicKey ⟨some "ABCD1234", some "RSA Encrypt or Sign", some 1,
    some (16 ^ 511), some 0, none, false⟩

/-- C1 counterexample stream: a primary key, then a subkey, then a user-ID
packet while the subkey is the current key. -/
def c1Stream : List Packet :=
  [.publicKey ⟨some "PRIMFP", some "RSA", some 1, none, some 5, none, false⟩,
   .publicKey ⟨some "SUBFP", some "RSA", some 1, none, some 6, none, true⟩,
   .userId (some "Alice") (some "a@x")]

/-- A subkey-current state for the C1 witness. -/
def subW : KeyInfo := .mk (some "SUBFP") "RSA" (some 1) "2048" "" 6 0 "?" [] [] true false

def primW : KeyInfo := .mk (some "FP") "RSA" (some 1) "2048" "" 5 0 "?" [] [subW] false false

def subCurState : PState := ⟨[primW], dummyKeyInfo, .sub⟩

/-- C5 counterexample stream: a key created at 1000 with no stated validity
period (`expires = 0`), then a signature (creation time 1000) carrying a
key-expiration subpacket with duration 0. -/
def c5Stream : List Packet :=
  [.publicKey ⟨some "FP", some "RSA", some 1, none, some 1000, none, false⟩,
   .signature (some 1000) (some [⟨9, some [0, 0, 0, 0]⟩])]

/-- A primary-current state whose key has `expires = 0`, for the C5 witness. -/
def primCurState : PState := ⟨[primW], dummyKeyInfo, .top⟩

/-- A key whose accumulated capabilities are `"s"` (e.g. from an earlier
key-flags subpacket with bit `0x02`). -/
def keyCapS : KeyInfo := .mk (some "FP") "RSA" (some 1) "2048" "s" 0 0 "?" [] [] false false

/-- C6 counterexample stream: a primary key, a key-flags subpacket with bit
`0x02` (sign), then one with bit `0x01` (certify). -/
def c6Stream : List Packet :=
  [.publicKey ⟨some "FP", some "RSA", some 1, none, some 5, none, false⟩,
   .signature (some 5) (some [⟨27, some [2]⟩]),
   .signature (some 5) (some [⟨27, some [1]⟩])]

/-- A one-primary-one-subkey stream for the C7 witness. -/
def c7Stream : List Packet :=
  [.publicKey ⟨some "PRIMFP", some "RSA", some 1, none, some 5, none, false⟩,
   .publicKey ⟨some "SUBFP", some "RSA", some 1, none, some 6, none, true⟩]

theorem KeyInfo.is_subkey_withCreated (c : Int) (k : KeyInfo) :
    (k.withCreated c).is_subkey = k.is_subkey := by cases k; rfl

theorem KeyInfo.subkeys_withCreated (c : Int) (k : KeyInfo) :
    (k.withCreated c).subkeys = k.subkeys := by cases k; rfl

theorem KeyInfo.created_withCreated (c : Int) (k : KeyInfo) :
    (k.withCreated c).created = c := by cases k; rfl

theorem KeyInfo.is_subkey_withExpires (e : Int) (k : KeyInfo) :
    (k.withExpires e).is_subkey = k.is_subkey := by cases k; rfl

theorem KeyInfo.subkeys_withExpires (e : Int) (k : KeyInfo) :
    (k.withExpires e).subkeys = k.subkeys := by cases k; rfl

theorem KeyInfo.expires_withExpires (e : Int) (k : KeyInfo) :
    (k.withExpires e).expires = e := by cases k; rfl

theorem KeyInfo.is_subkey_withCapabilities (c : String) (k : KeyInfo) :
    (k.withCapabilities c).is_subkey = k.is_subkey := by cases k; rfl

theorem KeyInfo.subkeys_withCapabilities (c : String) (k : KeyInfo) :
    (k.withCapabilities c).subkeys = k.subkeys := by cases k; rfl

theorem KeyInfo.capabilities_withCapabilities (c : String) (k : KeyInfo) :
    (k.withCapabilities c).capabilities = c := by cases k; rfl

theorem KeyInfo.withCapabilities_withCapabilities (a b : String) (k : KeyInfo) :
    (k.withCapabilities a).withCapabilities b = k.withCapabilities b := by cases k; rfl

theorem KeyInfo.is_subkey_withValidity (v : String) (k : KeyInfo) :
    (k.withValidity v).is_subkey = k.is_subkey := by cases k; rfl

theorem KeyInfo.subkeys_withValidity (v : String) (k : KeyInfo) :
    (k.withValidity v).subkeys = k.subkeys := by cases k; rfl

theorem KeyInfo.is_subkey_withUids (u : List KeyUID) (k : KeyInfo) :
    (k.withUids u).is_subkey = k.is_subkey := by cases k; rfl

theorem KeyInfo.subkeys_withUids (u : List KeyUID) (k : KeyInfo) :
    (k.withUids u).subkeys = k.subkeys := by cases k; rfl

theorem KeyInfo.uids_withUids (u : List KeyUID) (k : KeyInfo) :
    (k.withUids u).uids = u := by cases k; rfl

theorem KeyInfo.is_subkey_withSubkeys (l : List KeyInfo) (k : KeyInfo) :
    (k.withSubkeys l).is_subkey = k.is_subkey := by cases k; rfl

theorem KeyInfo.subkeys_withSubkeys (l : List KeyInfo) (k : KeyInfo) :
    (k.withSubkeys l).subkeys = l := by cases k; rfl

theorem KeyInfo.is_subkey_withIsSubkey (b : Bool) (k : KeyInfo) :
    (k.withIsSubkey b).is_subkey = b := by cases k; rfl

theorem KeyInfo.subkeys_withIsSubkey (b : Bool) (k : KeyInfo) :
    (k.withIsSubkey b).subkeys = k.subkeys := by cases k; rfl

/-! ## Helper lemmas -/

/-- The scan `takeWhile` recovers an explicitly appended prefix: if every element of
`l` satisfies `p` and `c` does not, the scan stops exactly at `c`. -/
theorem takeWhile_append_stop (p : α → Bool) (l : List α) (c : α) (r : List α)
    (hl : ∀ x ∈ l, p x = true) (hc : p c = false) :
    (l ++ c :: r).takeWhile p = l := by
  induction l with
  | nil => simp [List.takeWhile, hc]
  | cons a t ih =>
    have ha : p a = true := hl a (List.mem_cons_self a t)
    simp only [List.cons_append, List.takeWhile_cons, ha, if_true]
    rw [ih (fun x hx => hl x (List.mem_cons_of_mem a hx))]

/-- Every element surviving `takeWhile p` satisfies `p`. -/
theorem mem_takeWhile_pred (p : α → Bool) (l : List α) (x : α)
    (hx : x ∈ l.takeWhile p) : p x = true := by
  induction l with
  | nil => simp [List.takeWhile] at hx
  | cons a t ih =>
    rw [List.takeWhile_cons] at hx
    by_cases ha : p a = true
    · rw [if_pos ha] at hx
      rcases List.mem_cons.mp hx with rfl | hx
      · exact ha
      · exact ih hx
    · rw [if_neg ha] at hx
      exact absurd hx (List.not_mem_nil x)

theorem add_subkey_capabilities_subkeys (now : Int) (k : KeyInfo) :
    (add_subkey_capabilities now k).subkeys = k.subkeys := by
  unfold add_subkey_capabilities
  split
  · rfl
  · exact KeyInfo.subkeys_withCapabilities _ _

/-- The `subkey_caps` set only looks at the subkeys. -/
theorem subkeyCapsList_eq_of_subkeys (now : Int) (k k' : KeyInfo)
    (h : k.subkeys = k'.subkeys) : subkeyCapsList now k = subkeyCapsList now k' := by
  unfold subkeyCapsList
  rw [h]

/-! ## Claim C8 -/

/-- C8: subkey-capability inheritance is idempotent for a fixed reference
time: a second run of `add_subkey_capabilities` with the same `now` leaves
the key (in particular its capabilities string) unchanged, because the
substring before the first `'+'` is taken as the base each time and the
merged segment depends only on the (unchanged) subkeys. -/
theorem add_subkey_capabilities_idempotent (now : Int) (k : KeyInfo) :
    add_subkey_capabilities now (add_subkey_capabilities now k)
      = add_subkey_capabilities now k := by
  have hcaps : subkeyCapsList now (add_subkey_capabilities now k) = subkeyCapsList now k :=
    subkeyCapsList_eq_of_subkeys now _ _ (add_subkey_capabilities_subkeys now k)
  by_cases h : (subkeyCapsList now k).isEmpty
  · have hk : add_subkey_capabilities now k = k := by
      unfold add_subkey_capabilities
      rw [if_pos h]
    rw [hk, hk]
  · have hk : add_subkey_capabilities now k
        = k.withCapabilities (String.mk (k.capabilities.data.takeWhile (fun c => c ≠ '+')
            ++ '+' :: insSort (subkeyCapsList now k))) := by
      unfold add_subkey_capabilities
      rw [if_neg h]
    have ht : ((k.capabilities.data.takeWhile (fun c => c ≠ '+')
          ++ '+' :: insSort (subkeyCapsList now k)).takeWhile (fun c => c ≠ '+'))
        = k.capabilities.data.takeWhile (fun c => c ≠ '+') :=
      takeWhile_append_stop _ _ _ _ (fun x hx => mem_takeWhile_pred _ _ x hx) (by simp)
    conv_lhs => rw [add_subkey_capabilities]
    rw [hcaps, if_neg h, hk]
    rw [KeyInfo.capabilities_withCapabilities, KeyInfo.withCapabilities_withCapabilities]
    show k.withCapabilities (String.mk ((k.capabilities.data.takeWhile (fun c => c ≠ '+')
        ++ '+' :: insSort (subkeyCapsList now k)).takeWhile (fun c => c ≠ '+')
        ++ '+' :: insSort (subkeyCapsList now k))) = _
    rw [ht]

/-! ## Claim C4 -/

/-- C4 counterexample: the claim computes the candidate as
`key.created + duration = 100 + 30 = 130 > 50` for the second subpacket and
predicts that `expires` stays `50`; the code computes the candidate from the
*signature packet's* creation time (`0 + 30 = 30 < 50`) and overwrites, so
the returned key has `expires = 30 ≠ 50`. -/
theorem expiry_candidate_base_cex :
    (get_keyinfo (.ok c4Stream) none 0).map KeyInfo.created = [100] ∧
    (get_keyinfo (.ok c4Stream) none 0).map KeyInfo.expires = [30] ∧
    ((100 : Int) + 30 > 50) ∧ ((30 : Int) ≠ 50) := by
  refine ⟨by decide, by decide, by decide, by decide⟩

/-- C4 (amended): with the candidate expiry computed as the code computes it
— signature-packet creation time `ct` plus the subpacket duration `sec` —
signature-driven expiry is tighten-only on a key whose expiration is already
set: a candidate above the current `expires` leaves it unchanged, a positive
candidate strictly below it overwrites it. -/
theorem expiry_tighten_only (k : KeyInfo) (ct sec : Int) (hset : 0 < k.expires) :
    (k.expires < ct + sec → applyKeyExpiration (ct + sec) k = k) ∧
    (0 < ct + sec → ct + sec < k.expires →
      (applyKeyExpiration (ct + sec) k).expires = ct + sec) := by
  constructor
  · intro hgt
    unfold applyKeyExpiration
    rw [if_neg]
    rintro (⟨-, hlt⟩ | hzero)
    · omega
    · omega
  · intro hpos hlt
    unfold applyKeyExpiration
    rw [if_pos (Or.inl ⟨hpos, hlt⟩)]
    exact KeyInfo.expires_withExpires _ _

theorem expiry_tighten_only_witness :
    applyKeyExpiration (10 + 200) keyExp100 = keyExp100 ∧
    (applyKeyExpiration (10 + 40) keyExp100).expires = 10 + 40 :=
  ⟨(expiry_tighten_only keyExp100 10 200 (by decide)).1 (by decide),
   (expiry_tighten_only keyExp100 10 40 (by decide)).2 (by decide) (by decide)⟩

/-! ## Claim C3 -/

/-- C3: when stream-level decoding fails (the decoder raises one of the
structural errors caught at lines 196–204), `get_keyinfo` returns the empty
list — never a partial key list, and never an exception. -/
theorem decode_failure_empty (e : DecodeErr) (ach : Option String) (now : Int) :
    get_keyinfo (.error e) ach now = [] ∧ get_keyinfoE (.error e) ach now = .ok [] :=
  ⟨rfl, rfl⟩

/-! ## Claim C9 -/

/-- C9: every public-key packet gets `keysize` computed by the legacy
formula `str(int(1.024 * round(h / 0.256)))` on the packet's hex-digit count
`h` (evaluated in IEEE-754 double arithmetic exactly as CPython does — see
`pyKeysize`); in particular a 2048-bit RSA modulus (512 hex digits) yields
keysize 2048 in the returned key. -/
theorem keysize_formula :
    (∀ d : PubKeyData,
      (mkKeyOfPacket d).keysize = toString (pyKeysize (hexDigits (d.modulus.getD 0)))) ∧
    pyKeysize 512 = 2048 ∧
    (get_keyinfo (.ok [rsa2048Packet]) none 0).map KeyInfo.keysize = ["2048"] :=
  ⟨fun _ => rfl, by decide, by decide⟩

/-! ## State-manipulation lemmas -/

theorem updateLast_isEmpty (f : α → α) (l : List α) :
    (updateLast f l).isEmpty = l.isEmpty := by
  cases l with
  | nil => rfl
  | cons a t => cases t <;> rfl

theorem getLastD_updateLast (f : α → α) :
    ∀ (l : List α) (d : α), l.isEmpty = false →
      (updateLast f l).getLastD d = f (l.getLastD d) := by
  intro l
  induction l with
  | nil => intro d h; simp [List.isEmpty] at h
  | cons a t ih =>
    intro d h
    cases t with
    | nil => rfl
    | cons b t2 =>
      show (a :: updateLast f (b :: t2)).getLastD d = f ((a :: b :: t2).getLastD d)
      rw [List.getLastD_cons, List.getLastD_cons]
      exact ih a (by simp [List.isEmpty])

theorem setCur_loc (f : KeyInfo → KeyInfo) (s : PState) : (setCur f s).loc = s.loc := by
  obtain ⟨res, det, loc⟩ := s
  cases loc <;> rfl

theorem setCur_results_isEmpty (f : KeyInfo → KeyInfo) (s : PState) :
    (setCur f s).results.isEmpty = s.results.isEmpty := by
  obtain ⟨res, det, loc⟩ := s
  cases loc
  · rfl
  · rfl
  · exact updateLast_isEmpty _ res
  · exact updateLast_isEmpty _ res

/-- Writing through the current-key reference and then reading it back gives
`f` of the old current key (on well-formed states). -/
theorem getCur_setCur (f : KeyInfo → KeyInfo) (s : PState) (hwf : StateWF s) :
    getCur (setCur f s) = f (getCur s) := by
  obtain ⟨res, det, loc⟩ := s
  cases loc
  · rfl
  · rfl
  · exact getLastD_updateLast f res dummyKeyInfo hwf
  · obtain ⟨h1, h2⟩ := hwf
    show ((updateLast (fun p => p.withSubkeys (updateLast f p.subkeys)) res).getLastD
        dummyKeyInfo).subkeys.getLastD dummyKeyInfo = _
    rw [getLastD_updateLast _ res _ h1, KeyInfo.subkeys_withSubkeys]
    exact getLastD_updateLast f _ _ h2

/-- The write `setCur` preserves state well-formedness. -/
theorem setCur_StateWF (f : KeyInfo → KeyInfo) (s : PState) (hwf : StateWF s) :
    StateWF (setCur f s) := by
  obtain ⟨res, det, loc⟩ := s
  cases loc
  · exact hwf
  · exact hwf
  · exact (updateLast_isEmpty _ res).trans hwf
  · obtain ⟨h1, h2⟩ := hwf
    refine ⟨(updateLast_isEmpty _ res).trans h1, ?_⟩
    show ((updateLast (fun p => p.withSubkeys (updateLast f p.subkeys)) res).getLastD
        dummyKeyInfo).subkeys.isEmpty = false
    rw [getLastD_updateLast _ res _ h1, KeyInfo.subkeys_withSubkeys,
      updateLast_isEmpty]
    exact h2

/-! ## Claim C1 -/

/-- C1 counterexample: with a subkey current, the user-ID packet's identity
is appended to the *subkey's* UID list (`last_key.uids.append`), not to the
primary key's list — the returned primary key has no UIDs while its subkey
owns one, contradicting both halves of the claim. -/
theorem uid_attaches_to_subkey_cex :
    (get_keyinfo (.ok c1Stream) none 0).map KeyInfo.uids = [[]] ∧
    (get_keyinfo (.ok c1Stream) none 0).map (fun k => k.subkeys.map KeyInfo.uids)
      = [[[⟨some "Alice", some "a@x", ""⟩]]] :=
  ⟨by decide, by decide⟩

/-- C1 (amended): a user-ID packet processed after at least one key has been
seen appends the new `KeyUID` to the uids list of the *current* key —
the primary if a primary is current, the subkey if a subkey is current (so a
returned subkey may own UIDs). -/
theorem uid_appends_to_current_key (s : PState) (name email : Option String)
    (hwf : StateWF s) (hne : s.results.isEmpty = false) :
    stepE s (.userId name email)
        = (setCur (fun k => k.withUids (k.uids ++ [⟨name, email, ""⟩])) s, none) ∧
    getCur (stepE s (.userId name email)).1
        = (getCur s).withUids ((getCur s).uids ++ [⟨name, email, ""⟩]) := by
  have h1 : stepE s (.userId name email)
      = (setCur (fun k => k.withUids (k.uids ++ [⟨name, email, ""⟩])) s, none) := by
    show processUserId name email s = _
    unfold processUserId
    rw [hne]
    simp
  refine ⟨h1, ?_⟩
  rw [h1]
  exact getCur_setCur _ s hwf

theorem uid_appends_to_current_key_witness :
    getCur (stepE subCurState (.userId (some "Alice") (some "a@x"))).1
      = (getCur subCurState).withUids
          ((getCur subCurState).uids ++ [⟨some "Alice", some "a@x", ""⟩]) :=
  (uid_appends_to_current_key subCurState (some "Alice") (some "a@x") ⟨rfl, rfl⟩ rfl).2

/-! ## Claim C5 -/

/-- C5 counterexample: the claim says a zero duration is never adopted, so
`expires` should stay `0`; the code computes the candidate
`signature-creation-time + 0 = 1000` and, because `expires` is `0`, adopts
it: the returned key has `expires = 1000 ≠ 0`. -/
theorem zero_duration_adopted_cex :
    (get_keyinfo (.ok c5Stream) none 0).map KeyInfo.expires = [1000] ∧
    ((1000 : Int) ≠ 0) :=
  ⟨by decide, by decide⟩

/-- C5 (amended): a key-expiration subpacket whose duration is 0 produces
the candidate expiry `ct + 0 = ct` (the signature packet's creation time) and
is adopted under the ordinary override rule — when the candidate is positive
and below the current `expires`, or the current `expires` is 0 — rather than
being ignored. -/
theorem zero_duration_candidate (ct : Int) (rest : List ℕ) (s : PState)
    (hwf : StateWF s) :
    procSubpacket (some ct) ⟨9, some ([0, 0, 0, 0] ++ rest)⟩ s
        = (setCur (applyKeyExpiration ct) s, none) ∧
    (getCur (procSubpacket (some ct) ⟨9, some ([0, 0, 0, 0] ++ rest)⟩ s).1).expires
        = if (0 < ct ∧ ct < (getCur s).expires) ∨ (getCur s).expires = 0 then ct
          else (getCur s).expires := by
  have h1 : procSubpacket (some ct) ⟨9, some ([0, 0, 0, 0] ++ rest)⟩ s
      = (setCur (applyKeyExpiration ct) s, none) := by
    show (setCur (applyKeyExpiration
        (ct + ((0 * 2 ^ 24 + 0 * 2 ^ 16 + 0 * 2 ^ 8 + 0 : ℕ) : Int))) s, none) = _
    norm_num
  refine ⟨h1, ?_⟩
  rw [h1]
  show (getCur (setCur (applyKeyExpiration ct) s)).expires = _
  rw [getCur_setCur _ s hwf]
  unfold applyKeyExpiration
  split
  · exact KeyInfo.expires_withExpires ct (getCur s)
  · rfl

theorem zero_duration_candidate_witness :
    (getCur (procSubpacket (some 1000) ⟨9, some ([0, 0, 0, 0] ++ [])⟩ primCurState).1).expires
      = if (0 < (1000 : Int) ∧ (1000 : Int) < (getCur primCurState).expires)
          ∨ (getCur primCurState).expires = 0 then (1000 : Int)
        else (getCur primCurState).expires :=
  (zero_duration_candidate 1000 [] primCurState rfl).2

/-! ## Claim C10 -/

/-- C10 counterexample: the claim states `__setitem__` raises `KeyError` for
*every* unknown key, but a key beginning with `'_'` (line 61: `item[:1] !=
'_'`) bypasses both the key and the type check even though it is not declared
in `KEYS` — the assignment succeeds and stores the pair. -/
theorem underscore_key_bypass_cex :
    rdSetitem keyInfoKEYS [] "_x" (.vStr "v") = .ok [("_x", PyVal.vStr "v")] ∧
    lookupKEYS keyInfoKEYS "_x" = none :=
  ⟨rfl, rfl⟩

/-- C10 (amended): for keys not beginning with `'_'`, `__setitem__` raises
`KeyError` on undeclared keys and `TypeError` on values that are not
instances of the declared type (keys beginning with `'_'` bypass the
validation); constructor keyword arguments bypass it entirely — in
particular the `keysize` keyword of the `key_info_class(...)` call survives
as the decimal *string* built in `get_keyinfo`, despite the declared
`(int, 0)` type, and the typed model's `keysize` field is exactly that
string. -/
theorem restricteddict_validation :
    (∀ (d : List (String × PyVal)) (key : String) (v : PyVal),
      firstIsUnderscore key = false → lookupKEYS keyInfoKEYS key = none →
      rdSetitem keyInfoKEYS d key v = .error .keyErr) ∧
    (∀ (d : List (String × PyVal)) (key : String) (v : PyVal) (t : PyType) (dv : PyVal),
      firstIsUnderscore key = false → lookupKEYS keyInfoKEYS key = some (t, dv) →
      isinstance v t = false → rdSetitem keyInfoKEYS d key v = .error .typeErr) ∧
    (∀ fp ktn ktc sz : PyVal, dictLookup (mkKeyInfoDict fp ktn ktc sz) "keysize" = some sz) ∧
    (∀ pd : PubKeyData,
      (mkKeyOfPacket pd).keysize = toString (pyKeysize (hexDigits (pd.modulus.getD 0)))) := by
  refine ⟨?_, ?_, ?_, fun _ => rfl⟩
  · intro d key v hu hl
    unfold rdSetitem
    rw [hu, hl]
    simp
  · intro d key v t dv hu hl hi
    unfold rdSetitem
    rw [hu, hl]
    simp [hi]
  · intro fp ktn ktc sz
    rfl

theorem restricteddict_validation_witness :
    rdSetitem keyInfoKEYS [] "bogus" (.vInt 3) = .error .keyErr ∧
    rdSetitem keyInfoKEYS [] "keysize" (.vStr "2048") = .error .typeErr ∧
    dictLookup (mkKeyInfoDict (.vStr "FP") (.vStr "RSA") (.vInt 1) (.vStr "2048")) "keysize"
      = some (.vStr "2048") :=
  ⟨restricteddict_validation.1 [] "bogus" (.vInt 3) rfl rfl,
   restricteddict_validation.2.1 [] "keysize" (.vStr "2048") PyType.tInt (.vInt 0) rfl rfl rfl,
   restricteddict_validation.2.2.1 (.vStr "FP") (.vStr "RSA") (.vInt 1) (.vStr "2048")⟩

/-! ## Claim C6 -/

theorem pyDedup_go_mem : ∀ (l seen : List Char) (c : Char),
    c ∈ pyDedup.go seen l ↔ c ∈ l ∧ c ∉ seen := by
  intro l
  induction l with
  | nil => intro seen c; simp [pyDedup.go]
  | cons a t ih =>
    intro seen c
    unfold pyDedup.go
    by_cases ha : a ∈ seen
    · rw [if_pos ha, ih]
      simp only [List.mem_cons]
      constructor
      · rintro ⟨hc, hs⟩
        exact ⟨Or.inr hc, hs⟩
      · rintro ⟨hca, hs⟩
        rcases hca with rfl | hc
        · exact absurd ha hs
        · exact ⟨hc, hs⟩
    · rw [if_neg ha]
      simp only [List.mem_cons, ih, List.mem_cons]
      constructor
      · rintro (rfl | ⟨hct, hns⟩)
        · exact ⟨Or.inl rfl, ha⟩
        · exact ⟨Or.inr hct, fun hs => hns (Or.inr hs)⟩
      · rintro ⟨rfl | hct, hs⟩
        · exact Or.inl rfl
        · by_cases hca : c = a
          · exact Or.inl hca
          · exact Or.inr ⟨hct, fun hcs => hcs.elim hca hs⟩

theorem pyDedup_go_nodup : ∀ (l seen : List Char), (pyDedup.go seen l).Nodup := by
  intro l
  induction l with
  | nil => intro seen; simp [pyDedup.go]
  | cons a t ih =>
    intro seen
    unfold pyDedup.go
    by_cases ha : a ∈ seen
    · rw [if_pos ha]; exact ih seen
    · rw [if_neg ha]
      refine List.nodup_cons.mpr ⟨?_, ih (a :: seen)⟩
      intro hmem
      exact ((pyDedup_go_mem t (a :: seen) a).mp hmem).2 (List.mem_cons_self a seen)

theorem pyDedup_mem (l : List Char) (c : Char) : c ∈ pyDedup l ↔ c ∈ l := by
  unfold pyDedup
  rw [pyDedup_go_mem]
  simp

theorem pyDedup_nodup (l : List Char) : (pyDedup l).Nodup := pyDedup_go_nodup l []

/-- Both-sided form of `count_filter`. -/
theorem count_filter_eq (p : Char → Bool) (l : List Char) (c : Char) :
    (l.filter p).count c = if p c then l.count c else 0 := by
  induction l with
  | nil => simp
  | cons a t ih =>
    by_cases hpa : p a = true
    · rw [List.filter_cons_of_pos hpa, List.count_cons, List.count_cons, ih]
      by_cases hpc : p c = true
      · rw [if_pos hpc, if_pos hpc]
      · rw [if_neg hpc, if_neg hpc]
        have hac : (a == c) = false := by
          by_cases h : a = c
          · subst h; exact absurd hpa hpc
          · simpa using h
        simp [hac]
    · rw [List.filter_cons_of_neg (by simpa using hpa), ih]
      by_cases hpc : p c = true
      · rw [if_pos hpc, if_pos hpc, List.count_cons]
        have hac : (a == c) = false := by
          by_cases h : a = c
          · subst h; exact absurd hpc hpa
          · simpa using h
        simp [hac]
      · rw [if_neg hpc, if_neg hpc]

/-- The CPython set-iteration join contains exactly the set's elements (for
capability letters): each letter lands in exactly one of the four slot
groups, so the join is a permutation of the deduplicated insertions. -/
theorem cpySetJoin_perm (ins : List Char)
    (hsub : ∀ c ∈ ins, c ∈ (['a', 'c', 'e', 's'] : List Char)) :
    List.Perm (cpySetJoin ins) (pyDedup ins) := by
  rw [List.perm_iff_count]
  intro c
  have htd : (((pyDedup ins).filter (fun x => x = 'c' ∨ x = 's')).take 1).count c
      + (((pyDedup ins).filter (fun x => x = 'c' ∨ x = 's')).drop 1).count c
      = ((pyDedup ins).filter (fun x => x = 'c' ∨ x = 's')).count c := by
    rw [← List.count_append, List.take_append_drop]
  have hA : ((pyDedup ins).filter (fun x => x = 'a')).count c
      = if c = 'a' then (pyDedup ins).count c else 0 := by
    rw [count_filter_eq]; simp
  have hE : ((pyDedup ins).filter (fun x => x = 'e')).count c
      = if c = 'e' then (pyDedup ins).count c else 0 := by
    rw [count_filter_eq]; simp
  have hF : ((pyDedup ins).filter (fun x => x = 'c' ∨ x = 's')).count c
      = if c = 'c' ∨ c = 's' then (pyDedup ins).count c else 0 := by
    rw [count_filter_eq]; simp
  show ((pyDedup ins).filter (fun x => x = 'a')
      ++ ((pyDedup ins).filter (fun x => x = 'c' ∨ x = 's')).take 1
      ++ (pyDedup ins).filter (fun x => x = 'e')
      ++ ((pyDedup ins).filter (fun x => x = 'c' ∨ x = 's')).drop 1).count c
    = (pyDedup ins).count c
  simp only [List.count_append]
  by_cases h1 : c = 'a'
  · subst h1
    rw [if_pos rfl] at hA
    rw [if_neg (by decide)] at hE
    rw [if_neg (by decide)] at hF
    omega
  · by_cases h2 : c = 'c'
    · subst h2
      rw [if_neg (by decide)] at hA
      rw [if_neg (by decide)] at hE
      rw [if_pos (by decide)] at hF
      omega
    · by_cases h3 : c = 's'
      · subst h3
        rw [if_neg (by decide)] at hA
        rw [if_neg (by decide)] at hE
        rw [if_pos (by decide)] at hF
        omega
      · by_cases h4 : c = 'e'
        · subst h4
          rw [if_neg (by decide)] at hA
          rw [if_pos rfl] at hE
          rw [if_neg (by decide)] at hF
          omega
        · have hzero : (pyDedup ins).count c = 0 := by
            rw [List.count_eq_zero]
            intro hmem
            have hm := hsub c ((pyDedup_mem ins c).mp hmem)
            simp only [List.mem_cons, List.not_mem_nil, or_false] at hm
            rcases hm with h | h | h | h
            · exact h1 h
            · exact h2 h
            · exact h4 h
            · exact h3 h
          rw [if_neg h1] at hA
          rw [if_neg h4] at hE
          rw [if_neg (by rintro (h | h); exacts [h2 h, h3 h])] at hF
          omega

theorem keyFlagLetters_mem (b : ℕ) (c : Char) (hc : c ∈ keyFlagLetters b) :
    c ∈ (['a', 'c', 'e', 's'] : List Char) := by
  have haux : ∀ (cond : Prop) (inst : Decidable cond) (x : Char),
      c ∈ (if cond then [x] else ([] : List Char)) → c = x := by
    intro cond inst x h
    split at h
    · simpa using h
    · simp at h
  unfold keyFlagLetters at hc
  rcases List.mem_append.mp hc with hc | hc
  · rcases List.mem_append.mp hc with hc | hc
    · rcases List.mem_append.mp hc with hc | hc
      · rw [haux _ _ _ hc]; decide
      · rw [haux _ _ _ hc]; decide
    · rw [haux _ _ _ hc]; decide
  · rw [haux _ _ _ hc]; decide

/-- C6 counterexample: after a key-flags subpacket with bitmask `0x01` on a
key whose capabilities are already `"s"`, the stored string is `''.join` of a
CPython set — `"sc"` (set-slot order: `'s'` was inserted first and sits in
slot 2, `'c'` probes to slot 5) — not the sorted `"cs"` the claim requires. -/
theorem capabilities_not_sorted_cex :
    (applyKeyFlags 1 keyCapS).capabilities = "sc" ∧
    (get_keyinfo (.ok c6Stream) none 0).map KeyInfo.capabilities = ["sc"] ∧
    ("sc" : String) ≠ "cs" :=
  ⟨by decide, by decide, by decide⟩

/-- C6 (amended): after a key-flags subpacket with bitmask `b`, the current
key's capabilities string holds each letter at most once and contains
exactly the union of the previously recorded letters with the letters
flagged in `b` — but in CPython set-iteration order, not sorted order. -/
theorem key_flags_union (b : ℕ) (k : KeyInfo)
    (hsub : ∀ c ∈ k.capabilities.data, c ∈ (['a', 'c', 'e', 's'] : List Char)) :
    (applyKeyFlags b k).capabilities.data.Nodup ∧
    (∀ c, c ∈ (applyKeyFlags b k).capabilities.data
      ↔ c ∈ k.capabilities.data ∨ c ∈ keyFlagLetters b) := by
  have hins : ∀ c ∈ k.capabilities.data ++ keyFlagLetters b,
      c ∈ (['a', 'c', 'e', 's'] : List Char) := by
    intro c hc
    rcases List.mem_append.mp hc with h | h
    · exact hsub c h
    · exact keyFlagLetters_mem b c h
  have hperm := cpySetJoin_perm _ hins
  have hdata : (applyKeyFlags b k).capabilities.data
      = cpySetJoin (k.capabilities.data ++ keyFlagLetters b) := by
    unfold applyKeyFlags
    rw [KeyInfo.capabilities_withCapabilities]
  constructor
  · rw [hdata]
    exact hperm.symm.nodup (pyDedup_nodup _)
  · intro c
    rw [hdata, hperm.mem_iff, pyDedup_mem, List.mem_append]

theorem key_flags_union_witness :
    (applyKeyFlags 3 keyCapS).capabilities.data.Nodup ∧
    ('c' ∈ (applyKeyFlags 3 keyCapS).capabilities.data
      ↔ 'c' ∈ keyCapS.capabilities.data ∨ 'c' ∈ keyFlagLetters 3) :=
  ⟨(key_flags_union 3 keyCapS (by decide)).1,
   (key_flags_union 3 keyCapS (by decide)).2 'c'⟩

/-! ## Claim C7 -/

theorem updateLast_pred (P : α → Prop) (f : α → α) (hf : ∀ a, P a → P (f a)) :
    ∀ (l : List α), (∀ a ∈ l, P a) → ∀ a ∈ updateLast f l, P a := by
  intro l
  induction l with
  | nil => intro _ a ha; simp [updateLast] at ha
  | cons x t ih =>
    intro h a ha
    cases t with
    | nil =>
      have : a = f x := List.mem_singleton.mp ha
      subst this
      exact hf x (h x (List.mem_cons_self x []))
    | cons y t2 =>
      rw [show updateLast f (x :: y :: t2) = x :: updateLast f (y :: t2) from rfl] at ha
      rcases List.mem_cons.mp ha with rfl | ha2
      · exact h a (List.mem_cons_self _ _)
      · exact ih (fun b hb => h b (List.mem_cons_of_mem _ hb)) a ha2

theorem pres_keyFlagsOK (f : KeyInfo → KeyInfo) (hf : PreservesStructure f) :
    ∀ k, KeyFlagsOK k → KeyFlagsOK (f k) := by
  intro k hk
  refine ⟨(hf k).1.trans hk.1, ?_⟩
  intro sk hsk
  rw [(hf k).2] at hsk
  exact hk.2 sk hsk

theorem setCur_ResultsInv (f : KeyInfo → KeyInfo) (hf : PreservesStructure f)
    (s : PState) (h : ResultsInv s) : ResultsInv (setCur f s) := by
  obtain ⟨res, det, loc⟩ := s
  cases loc
  · exact h
  · exact h
  · exact updateLast_pred KeyFlagsOK f (pres_keyFlagsOK f hf) res h
  · refine updateLast_pred KeyFlagsOK _ ?_ res h
    intro p hp
    refine ⟨?_, ?_⟩
    · rw [KeyInfo.is_subkey_withSubkeys]; exact hp.1
    · intro sk hsk
      rw [KeyInfo.subkeys_withSubkeys] at hsk
      exact updateLast_pred (fun x => x.is_subkey = true) f
        (fun a ha => ((hf a).1).trans ha) p.subkeys hp.2 sk hsk

theorem pres_withCreated (c : Int) : PreservesStructure (KeyInfo.withCreated c) :=
  fun k => ⟨KeyInfo.is_subkey_withCreated c k, KeyInfo.subkeys_withCreated c k⟩

theorem pres_withExpires (e : Int) : PreservesStructure (KeyInfo.withExpires e) :=
  fun k => ⟨KeyInfo.is_subkey_withExpires e k, KeyInfo.subkeys_withExpires e k⟩

theorem pres_expiresFix :
    PreservesStructure (fun k => if k.expires = k.created then k.withExpires 0 else k) := by
  intro k
  dsimp only
  split
  · exact ⟨KeyInfo.is_subkey_withExpires 0 k, KeyInfo.subkeys_withExpires 0 k⟩
  · exact ⟨rfl, rfl⟩

theorem pres_uidAppend (name email : Option String) :
    PreservesStructure (fun k => k.withUids (k.uids ++ [⟨name, email, ""⟩])) :=
  fun k => ⟨KeyInfo.is_subkey_withUids _ k, KeyInfo.subkeys_withUids _ k⟩

theorem pres_applyKeyExpiration (e : Int) : PreservesStructure (applyKeyExpiration e) := by
  intro k
  unfold applyKeyExpiration
  split
  · exact ⟨KeyInfo.is_subkey_withExpires e k, KeyInfo.subkeys_withExpires e k⟩
  · exact ⟨rfl, rfl⟩

theorem pres_applyKeyFlags (b : ℕ) : PreservesStructure (applyKeyFlags b) := by
  intro k
  unfold applyKeyFlags
  exact ⟨KeyInfo.is_subkey_withCapabilities _ k, KeyInfo.subkeys_withCapabilities _ k⟩

theorem procSubpacket_ResultsInv (ct : Option Int) (sp : Subpacket) (s : PState)
    (h : ResultsInv s) : ResultsInv (procSubpacket ct sp s).1 := by
  unfold procSubpacket
  repeat' split
  all_goals first
    | exact h
    | exact setCur_ResultsInv _ (pres_applyKeyExpiration _) s h
    | exact setCur_ResultsInv _ (pres_applyKeyFlags _) s h

theorem procSubpackets_ResultsInv (ct : Option Int) :
    ∀ (l : List Subpacket) (s : PState), ResultsInv s → ResultsInv (procSubpackets ct l s).1 := by
  intro l
  induction l with
  | nil => intro s h; exact h
  | cons sp rest ih =>
    intro s h
    unfold procSubpackets
    cases hp : procSubpacket ct sp s with
    | mk s1 e? =>
      have h1 : ResultsInv s1 := by
        have hh := procSubpacket_ResultsInv ct sp s h
        rw [hp] at hh
        exact hh
      cases e? with
      | none => exact ih s1 h1
      | some e => exact h1

theorem setKeyDates_ResultsInv (d : PubKeyData) (s1 : PState) (h : ResultsInv s1) :
    ResultsInv (setKeyDates d s1).1 := by
  unfold setKeyDates
  cases hct : d.rawCreationTime with
  | none => exact h
  | some ct =>
    dsimp only
    cases hdv : d.rawDaysValid with
    | none => exact setCur_ResultsInv _ (pres_withCreated ct) s1 h
    | some days =>
      dsimp only
      split
      · exact setCur_ResultsInv _ pres_expiresFix _
          (setCur_ResultsInv _ (pres_withExpires _) _
            (setCur_ResultsInv _ (pres_withCreated ct) s1 h))
      · exact setCur_ResultsInv _ (pres_withCreated ct) s1 h

theorem attachKey_ResultsInv (d : PubKeyData) (s : PState) (h : ResultsInv s) :
    ∀ s1, attachKey d s = some s1 → ResultsInv s1 := by
  intro s1 hs1
  unfold attachKey at hs1
  split at hs1
  · split at hs1
    · exact absurd hs1 (by simp)
    · injection hs1 with hs1
      subst hs1
      refine updateLast_pred KeyFlagsOK _ ?_ s.results h
      intro p hp
      refine ⟨?_, ?_⟩
      · rw [KeyInfo.is_subkey_withSubkeys]; exact hp.1
      · intro sk hsk
        rw [KeyInfo.subkeys_withSubkeys] at hsk
        rcases List.mem_append.mp hsk with hsk | hsk
        · exact hp.2 sk hsk
        · have : sk = (mkKeyOfPacket d).withIsSubkey true := List.mem_singleton.mp hsk
          subst this
          exact KeyInfo.is_subkey_withIsSubkey true _
  · injection hs1 with hs1
    subst hs1
    intro k hk
    rcases List.mem_append.mp hk with hk | hk
    · exact h k hk
    · have : k = mkKeyOfPacket d := List.mem_singleton.mp hk
      subst this
      exact ⟨rfl, by intro sk hsk; simp [mkKeyOfPacket, KeyInfo.subkeys] at hsk⟩

theorem processPublicKey_ResultsInv (d : PubKeyData) (s : PState) (h : ResultsInv s) :
    ResultsInv (processPublicKey d s).1 := by
  unfold processPublicKey
  cases ha : attachKey d s with
  | none => exact h
  | some s1 => exact setKeyDates_ResultsInv d s1 (attachKey_ResultsInv d s h s1 ha)

theorem stepE_ResultsInv (s : PState) (p : Packet) (h : ResultsInv s) :
    ResultsInv (stepE s p).1 := by
  cases p with
  | publicKey d => exact processPublicKey_ResultsInv d s h
  | userId name email =>
    show ResultsInv (processUserId name email s).1
    unfold processUserId
    split
    · exact h
    · exact setCur_ResultsInv _ (pres_uidAppend name email) s h
  | signature ct subs =>
    show ResultsInv (processSignature ct subs s).1
    unfold processSignature
    split
    · exact h
    · cases subs with
      | none => exact h
      | some l => exact procSubpackets_ResultsInv ct l s h
  | other => exact h

theorem runPackets_ResultsInv :
    ∀ (ps : List Packet) (s : PState), ResultsInv s → ResultsInv (runPackets s ps) := by
  intro ps
  induction ps with
  | nil => intro s h; exact h
  | cons p rest ih =>
    intro s h
    exact ih (stepE s p).1 (stepE_ResultsInv s p h)

theorem pres_synthesize_validity (now : Int) :
    ∀ k, KeyFlagsOK k → KeyFlagsOK (synthesize_validity now k) := by
  intro k hk
  unfold synthesize_validity
  split
  · exact ⟨(KeyInfo.is_subkey_withValidity _ k).trans hk.1,
      fun sk hsk => hk.2 sk ((KeyInfo.subkeys_withValidity _ k) ▸ hsk)⟩
  · exact hk

theorem add_subkey_capabilities_is_subkey (now : Int) (k : KeyInfo) :
    (add_subkey_capabilities now k).is_subkey = k.is_subkey := by
  unfold add_subkey_capabilities
  split
  · rfl
  · exact KeyInfo.is_subkey_withCapabilities _ k

theorem pres_add_subkey_capabilities (now : Int) :
    ∀ k, KeyFlagsOK k → KeyFlagsOK (add_subkey_capabilities now k) := by
  intro k hk
  exact ⟨(add_subkey_capabilities_is_subkey now k).trans hk.1,
    fun sk hsk => hk.2 sk ((add_subkey_capabilities_subkeys now k) ▸ hsk)⟩

theorem pres_ensure_autocrypt_uid (ac : KeyUID) :
    ∀ k, KeyFlagsOK k → KeyFlagsOK (ensure_autocrypt_uid ac k) := by
  intro k hk
  unfold ensure_autocrypt_uid
  split
  · exact hk
  · split
    · exact ⟨(KeyInfo.is_subkey_withUids _ k).trans hk.1,
        fun sk hsk => hk.2 sk ((KeyInfo.subkeys_withUids _ k) ▸ hsk)⟩
    · exact ⟨(KeyInfo.is_subkey_withUids _ k).trans hk.1,
        fun sk hsk => hk.2 sk ((KeyInfo.subkeys_withUids _ k) ▸ hsk)⟩

theorem postProcess_keyFlagsOK (ach : Option String) (now : Int)
    (results : List KeyInfo) (h : ∀ k ∈ results, KeyFlagsOK k) :
    ∀ k ∈ postProcess ach now results, KeyFlagsOK k := by
  intro k hk
  unfold postProcess at hk
  rcases List.mem_map.mp hk with ⟨k0, hk0, rfl⟩
  have h2 := pres_add_subkey_capabilities now _ (pres_synthesize_validity now k0 (h k0 hk0))
  cases hac : (ach.map (fun a => (⟨none, some a, "Autocrypt"⟩ : KeyUID))) with
  | none => exact h2
  | some u => exact pres_ensure_autocrypt_uid u _ h2

/-- C7: every key in the list returned by `get_keyinfo` is a top-level key
(`is_subkey = false`), every entry of a returned key's `subkeys` list has
`is_subkey = true`, and subkeys are reachable only through their parent's
`subkeys` list (they are never appended to the top-level result list). -/
theorem subkey_flag_invariant (decoded : Except DecodeErr (List Packet))
    (ach : Option String) (now : Int) (k : KeyInfo)
    (hk : k ∈ get_keyinfo decoded ach now) :
    k.is_subkey = false ∧ ∀ sk ∈ k.subkeys, sk.is_subkey = true := by
  cases decoded with
  | error e => simp [get_keyinfo] at hk
  | ok ps =>
    have hres : ResultsInv (runPackets initState ps) :=
      runPackets_ResultsInv ps initState (by intro k2 hk2; simp [initState] at hk2)
    exact postProcess_keyFlagsOK ach now _ hres k hk

theorem headD_mem (l : List α) (d : α) (h : l.isEmpty = false) : l.headD d ∈ l := by
  cases l with
  | nil => simp [List.isEmpty] at h
  | cons a t => exact List.mem_cons_self a t

theorem subkey_flag_invariant_witness :
    ((get_keyinfo (.ok c7Stream) none 0).headD dummyKeyInfo).is_subkey = false :=
  (subkey_flag_invariant (.ok c7Stream) none 0 _
    (headD_mem _ dummyKeyInfo (by decide))).1

/-! ## Claim C2 -/

theorem get_int4_err (d : List ℕ) (e : PyErr) (h : get_int4 d = .error e) :
    e = .indexErr := by
  unfold get_int4 at h
  split at h
  · exact absurd h (by simp)
  · injection h with h
    exact h.symm

theorem procSubpacket_caught (ct : Option Int) (sp : Subpacket) (s : PState) :
    ∀ e, (procSubpacket ct sp s).2 = some e → caught e = true := by
  intro e he
  unfold procSubpacket at he
  by_cases h9 : sp.subtype = 9
  · rw [if_pos h9] at he
    cases hd : sp.data with
    | none => rw [hd] at he; injection he with he; subst he; rfl
    | some d =>
      rw [hd] at he
      dsimp only at he
      cases hg : get_int4 d with
      | error e1 =>
        rw [hg] at he
        injection he with he
        subst he
        rw [get_int4_err d e1 hg]
        rfl
      | ok sec =>
        rw [hg] at he
        cases hc : ct with
        | none => rw [hc] at he; injection he with he; subst he; rfl
        | some c => rw [hc] at he; exact Option.noConfusion he
  · rw [if_neg h9] at he
    by_cases h27 : sp.subtype = 27
    · rw [if_pos h27] at he
      cases hd : sp.data with
      | none => rw [hd] at he; injection he with he; subst he; rfl
      | some d =>
        rw [hd] at he
        cases d with
        | nil => injection he with he; subst he; rfl
        | cons b rest => exact Option.noConfusion he
    · rw [if_neg h27] at he
      exact Option.noConfusion he

theorem procSubpackets_caught (ct : Option Int) :
    ∀ (l : List Subpacket) (s : PState) (e : PyErr),
      (procSubpackets ct l s).2 = some e → caught e = true := by
  intro l
  induction l with
  | nil => intro s e he; exact Option.noConfusion he
  | cons sp rest ih =>
    intro s e he
    unfold procSubpackets at he
    rcases hp : procSubpacket ct sp s with ⟨s1, e1?⟩
    rw [hp] at he
    cases e1? with
    | none => exact ih s1 e he
    | some e1 =>
      injection he with he
      subst he
      exact procSubpacket_caught ct sp s e1 (by rw [hp])

theorem stepE_caught (s : PState) (p : Packet) :
    ∀ e, (stepE s p).2 = some e → caught e = true := by
  intro e he
  cases p with
  | publicKey d =>
    have he2 : (processPublicKey d s).2 = some e := he
    unfold processPublicKey at he2
    cases ha : attachKey d s with
    | none => rw [ha] at he2; injection he2 with he2; subst he2; rfl
    | some s1 =>
      rw [ha] at he2
      unfold setKeyDates at he2
      cases hct : d.rawCreationTime with
      | none => rw [hct] at he2; injection he2 with he2; subst he2; rfl
      | some ct =>
        rw [hct] at he2
        dsimp only at he2
        cases hdv : d.rawDaysValid with
        | none => rw [hdv] at he2; exact Option.noConfusion he2
        | some days =>
          rw [hdv] at he2
          dsimp only at he2
          split at he2
          · exact Option.noConfusion he2
          · exact Option.noConfusion he2
  | userId name email =>
    have he2 : (processUserId name email s).2 = some e := he
    unfold processUserId at he2
    split at he2
    · exact Option.noConfusion he2
    · exact Option.noConfusion he2
  | signature ct subs =>
    have he2 : (processSignature ct subs s).2 = some e := he
    unfold processSignature at he2
    split at he2
    · exact Option.noConfusion he2
    · cases subs with
      | none => injection he2 with he2; subst he2; rfl
      | some l => exact procSubpackets_caught ct l s e he2
  | other => exact Option.noConfusion he

/-- The packet loop never propagates: every exception an iteration can raise
is in the `except` clause, so the raising run always equals the catching
run. -/
theorem runPacketsE_eq : ∀ (ps : List Packet) (s : PState),
    runPacketsE s ps = .ok (runPackets s ps) := by
  intro ps
  induction ps with
  | nil => intro s; rfl
  | cons p rest ih =>
    intro s
    show (match stepE s p with
      | (s1, none) => runPacketsE s1 rest
      | (s1, some e) => if caught e then runPacketsE s1 rest else .error e)
      = .ok (runPackets s (p :: rest))
    rw [show runPackets s (p :: rest) = runPackets (stepE s p).1 rest from rfl]
    rcases hp : stepE s p with ⟨s1, e?⟩
    cases e? with
    | none => exact ih s1
    | some e =>
      show (if caught e = true then runPacketsE s1 rest else Except.error e)
          = .ok (runPackets (s1, some e).1 rest)
      rw [if_pos (show caught e = true from stepE_caught s p e (by rw [hp]))]
      exact ih s1

/-- C2: once stream-level decoding has succeeded, `get_keyinfo` never raises
to the caller: every failure while processing a single packet is one of the
caught exception classes (`TypeError`, `AttributeError`, `KeyError`,
`IndexError`, `NameError`), the loop continues from the partial state the
failing packet left behind, and the caller always receives the list the
total function computes. -/
theorem get_keyinfo_never_raises (decoded : Except DecodeErr (List Packet))
    (ach : Option String) (now : Int) :
    get_keyinfoE decoded ach now = .ok (get_keyinfo decoded ach now) := by
  cases decoded with
  | error e => rfl
  | ok ps =>
    show (runPacketsE initState ps).map (fun st => postProcess ach now st.results)
      = .ok (postProcess ach now (runPackets initState ps).results)
    rw [runPacketsE_eq ps initState]
    rfl
